import Mathlib

/-!
Verification of the protobuf-serialization repository: a host-side UART
serializer (`src/pc/serializer.py`) sending protobuf-encoded
`Payload {timestamp: int64, data: string}` records to an ESP32 deserializer.
The PC-side transmission gate and `send_message` are embedded directly from
`serializer.py`.  The wire codec, byte-stream receiver and presentation
converter run on the device (and inside the protobuf library); their code is
not part of the repository sources, so they are modelled from the spec
(sections 4.1-4.3, 6): a two-field tag/varint protobuf frame, a bounded
receive buffer with overflow resynchronization, and a canonical JSON
rendering.
-/

/-- Decode failure taxonomy of the Wire Codec (spec section 4.1). -/
inductive DecodeError where
  | Truncated
  | Malformed
  | TooLarge
deriving DecidableEq

/-- The transported unit: a 64-bit signed timestamp plus a bounded byte
sequence (spec section 3).  Bytes are modelled as natural numbers below 256. -/
structure Record where
  timestamp : Int
  data : List Nat
deriving DecidableEq

/-- Hard protocol limit on the data field, in bytes (spec section 6). -/
def MAX_DATA_BYTES : Nat := 112

/-- Modelled from the spec: base-128 varint encoding used by the protobuf
wire format for integer fields (least-significant group first, high bit set
on every byte but the last).  Structural recursion on a fuel that only needs
to dominate the value; `varintEncode` instantiates it with the value itself. -/
def varintEncodeAux (fuel n : Nat) : List Nat :=
  match fuel with
  | 0 => [n]
  | fuel + 1 => if n < 128 then [n] else (n % 128 + 128) :: varintEncodeAux fuel (n / 128)

/-- Modelled from the spec: varint encoding of a natural number. -/
def varintEncode (n : Nat) : List Nat :=
  varintEncodeAux n n

/-- Modelled from the spec: varint decoding with protobuf's 10-byte limit
threaded as fuel.  Running out of bytes is `Truncated`; running out of fuel
(a varint longer than the limit) is `Malformed`. -/
def parseVarintAux : Nat → List Nat → Except DecodeError (Nat × List Nat)
  | _, [] => .error .Truncated
  | 0, _ :: _ => .error .Malformed
  | fuel + 1, b :: rest =>
    if b < 128 then .ok (b, rest)
    else
      match parseVarintAux fuel rest with
      | .ok (n, rest2) => .ok ((b - 128) + 128 * n, rest2)
      | .error e => .error e

/-- Modelled from the spec: protobuf varints occupy at most 10 bytes. -/
def parseVarint (bs : List Nat) : Except DecodeError (Nat × List Nat) :=
  parseVarintAux 10 bs

/-- Two's-complement image of a signed 64-bit timestamp as the unsigned
varint payload, as protobuf serializes `int64`. -/
def tsU64 (ts : Int) : Nat :=
  (ts % (2 ^ 64 : Int)).toNat

/-- Signed interpretation of a 64-bit unsigned value (inverse of `tsU64`
on the signed 64-bit range). -/
def u64ToInt (u : Nat) : Int :=
  if u < 2 ^ 63 then (u : Int) else (u : Int) - 2 ^ 64

/-- Modelled from the spec: `encode(Record) -> bytes` (spec sections 4.1, 6).
Field 1 (tag 0x08) carries the timestamp as a varint of its 64-bit
two's-complement image; field 2 (tag 0x12) is the length-delimited data. -/
def encode (r : Record) : List Nat :=
  8 :: varintEncode (tsU64 r.timestamp) ++ 18 :: varintEncode r.data.length ++ r.data

/-- Modelled from the spec: parse one Frame from the front of a byte
sequence, returning the Record and the unconsumed remainder.  A declared
data length above `MAX_DATA_BYTES` is `TooLarge`; a wrong field tag is
`Malformed`; running out of bytes anywhere is `Truncated`. -/
def decodeFrame (bs : List Nat) : Except DecodeError (Record × List Nat) :=
  match bs with
  | [] => .error .Truncated
  | t1 :: rest1 =>
    if t1 = 8 then
      match parseVarint rest1 with
      | .error e => .error e
      | .ok (u, rest2) =>
        match rest2 with
        | [] => .error .Truncated
        | t2 :: rest3 =>
          if t2 = 18 then
            match parseVarint rest3 with
            | .error e => .error e
            | .ok (len, rest4) =>
              if len > MAX_DATA_BYTES then .error .TooLarge
              else if rest4.length < len then .error .Truncated
              else .ok (⟨u64ToInt (u % 2 ^ 64), rest4.take len⟩, rest4.drop len)
          else .error .Malformed
    else .error .Malformed

/-- Modelled from the spec: `decode(bytes) -> Result<Record, DecodeError>`,
all-or-nothing on the whole buffer (spec section 4.1). -/
def decode (bs : List Nat) : Except DecodeError Record :=
  match decodeFrame bs with
  | .ok (r, []) => .ok r
  | .ok (_, _ :: _) => .error .Malformed
  | .error e => .error e

/-- A Record the protocol calls valid: timestamp within signed 64-bit range,
data within the size bound, bytes in range (spec section 3). -/
def ValidRecord (r : Record) : Prop :=
  -(2 ^ 63) ≤ r.timestamp ∧ r.timestamp < 2 ^ 63 ∧
    r.data.length ≤ MAX_DATA_BYTES ∧ ∀ b ∈ r.data, b < 256

/-- Wire-encoded size of a maximum-size Record: 1 tag byte + up to 10 varint
bytes for the timestamp + 1 tag byte + 1 length byte + 112 data bytes
(spec section 3, Receive Buffer invariant). -/
def MAX_FRAME_BYTES : Nat := 125

/-- Receive Buffer state of the Byte-Stream Receiver (spec section 4.2). -/
structure RxState where
  buf : List Nat
deriving DecidableEq

/-- Observable events the Receiver emits toward the log sink: a decoded
Record, an overflow diagnostic, or a decode-failure diagnostic
(spec sections 4.2, 6). -/
inductive RxEvent where
  | decoded (r : Record)
  | overflow
  | failed (e : DecodeError)
deriving DecidableEq

/-- Whether an event is a successful decode (carries a Record for the
Presentation Converter). -/
def RxEvent.isDecoded : RxEvent → Bool
  | .decoded _ => true
  | _ => false

/-- Modelled from the spec: one step of the Byte-Stream Receiver on a newly
arrived byte (spec section 4.2).  Append, then attempt decode: success
drains the consumed frame; `Truncated` keeps buffering unless the buffer
has reached `MAX_FRAME_BYTES`, which is an overflow (discard, diagnose,
resynchronize); `Malformed`/`TooLarge` discard the buffer with a
decode-failure diagnostic. -/
def rxStep (s : RxState) (b : Nat) : RxState × List RxEvent :=
  match decodeFrame (s.buf ++ [b]) with
  | .ok (r, rest) => (⟨rest⟩, [.decoded r])
  | .error .Truncated =>
    if MAX_FRAME_BYTES ≤ (s.buf ++ [b]).length then (⟨[]⟩, [.overflow])
    else (⟨s.buf ++ [b]⟩, [])
  | .error e => (⟨[]⟩, [.failed e])

/-- Modelled from the spec: the Receiver consuming a byte stream in arrival
order, collecting the emitted events. -/
def rxRun (s : RxState) : List Nat → RxState × List RxEvent
  | [] => (s, [])
  | b :: bs =>
    let step := rxStep s b
    let rest := rxRun step.1 bs
    (rest.1, step.2 ++ rest.2)

/-- Hex digit for the presentation escape of control characters. -/
def hexDigit (n : Nat) : Char :=
  if n < 10 then Char.ofNat (48 + n) else Char.ofNat (87 + n)

/-- Modelled from the spec: minimal escaping of one character for the
structured-text (JSON) form — only the double quote, the backslash and
control characters are escaped (spec section 4.3). -/
def escapeChar (c : Char) : String :=
  if c = Char.ofNat 34 then "\\\""
  else if c = '\\' then "\\\\"
  else if c.toNat < 32 then
    "\\u00" ++ String.mk [hexDigit (c.toNat / 16), hexDigit (c.toNat % 16)]
  else String.mk [c]

/-- Modelled from the spec: minimal escaping of a whole string. -/
def escape (s : String) : String :=
  String.join (s.data.map escapeChar)

/-- A decoded Record with its data interpreted as UTF-8 text, as handed to
the Presentation Converter. -/
structure TextRecord where
  timestamp : Int
  data : String
deriving DecidableEq

/-- Modelled from the spec: `render(Record)`, the canonical structured-text
form with fixed key order (`timestamp` then `data`), decimal integers and
minimally escaped strings (spec section 4.3). -/
def render (r : TextRecord) : String :=
  "\x7b\"timestamp\":" ++ r.timestamp.repr ++ ",\"data\":\"" ++ escape r.data ++ "\"\x7d"

/-- UTF-8 encoding of one character (code point to 1-4 bytes). -/
def utf8EncodeChar (c : Char) : List Nat :=
  let n := c.toNat
  if n < 128 then [n]
  else if n < 2048 then [192 + n / 64, 128 + n % 64]
  else if n < 65536 then [224 + n / 4096, 128 + n / 64 % 64, 128 + n % 64]
  else [240 + n / 262144, 128 + n / 4096 % 64, 128 + n / 64 % 64, 128 + n % 64]

/-- UTF-8 encoding of a string, the byte sequence protobuf serializes for a
`string` field. -/
def utf8Encode (s : String) : List Nat :=
  (s.data.map utf8EncodeChar).flatten

/-- The open/closed state of the pyserial connection, as far as
`send_message` inspects it (`ser and ser.is_open`). -/
structure SerialConn where
  is_open : Bool
deriving DecidableEq

/-- From `src/pc/serializer.py` `send_message`: if the connection exists and
is open, build `Payload {timestamp = ts, data = message}`, serialize it and
write the bytes to the port (returned as `some bytes`); otherwise nothing is
transmitted (`none`).  No size check of any kind appears here. -/
def send_message (ser : Option SerialConn) (message : String) (ts : Int) : Option (List Nat) :=
  match ser with
  | some s => if s.is_open then some (encode ⟨ts, utf8Encode message⟩) else none
  | none => none

/-- From `src/pc/serializer.py` `main`: one iteration of the interactive
loop — a message of 113 or more characters (Python `len`, counting
characters, not bytes) is refused with a warning and nothing is sent;
otherwise `send_message` transmits it. -/
def main_loop_step (ser : Option SerialConn) (msg : String) (ts : Int) : Option (List Nat) :=
  if 113 ≤ msg.length then none else send_message ser msg ts

/-- From `src/esp32/deserializer/tests/test_main.py` `create_protobuf_payload`:
serialize `Payload {timestamp, data}` to bytes. -/
def create_protobuf_payload (timestamp : Int) (data : String) : List Nat :=
  encode ⟨timestamp, utf8Encode data⟩

/-- 60 copies of U+00E9, a two-byte UTF-8 character: 60 characters for the
host-side `len` check, but 120 bytes once protobuf serializes the string. -/
def multibyteMsg : String := String.mk (List.replicate 60 (Char.ofNat 233))

/-- A Receive Buffer filled with 124 bytes that still form no complete Frame:
a full header (timestamp varint of 10 bytes, field-2 tag, a two-byte varint
declaring 112 data bytes) followed by only 110 of the 112 promised bytes. -/
def nearFullBuf : List Nat :=
  8 :: (List.replicate 9 128 ++ [1]) ++ 18 :: [240, 0] ++ List.replicate 110 0

theorem varintEncodeAux_congr :
    ∀ fuel fuel' n, n ≤ fuel → n ≤ fuel' →
      varintEncodeAux fuel n = varintEncodeAux fuel' n := by
  intro fuel
  induction fuel with
  | zero =>
    intro fuel' n hn hn'
    have hn0 : n = 0 := Nat.le_zero.mp hn
    subst hn0
    cases fuel' with
    | zero => rfl
    | succ f => simp [varintEncodeAux]
  | succ f ih =>
    intro fuel' n hn hn'
    cases fuel' with
    | zero =>
      have hn0 : n = 0 := Nat.le_zero.mp hn'
      subst hn0
      simp [varintEncodeAux]
    | succ f' =>
      simp only [varintEncodeAux]
      by_cases h : n < 128
      · simp [h]
      · simp only [h, if_false]
        have hlt : n / 128 < n := Nat.div_lt_self (by omega) (by omega)
        rw [ih f' (n / 128) (by omega) (by omega)]

theorem varintEncode_eq (n : Nat) :
    varintEncode n = if n < 128 then [n] else (n % 128 + 128) :: varintEncode (n / 128) := by
  unfold varintEncode
  cases n with
  | zero => simp [varintEncodeAux]
  | succ m =>
    simp only [varintEncodeAux]
    by_cases h : m + 1 < 128
    · simp [h]
    · simp only [h, if_false]
      have hlt : (m + 1) / 128 < m + 1 := Nat.div_lt_self (by omega) (by omega)
      rw [varintEncodeAux_congr m ((m + 1) / 128) ((m + 1) / 128) (by omega) (by omega)]

theorem varintEncode_length :
    ∀ k n, n < 128 ^ (k + 1) → (varintEncode n).length ≤ k + 1 := by
  intro k
  induction k with
  | zero =>
    intro n hn
    rw [varintEncode_eq]
    simp at hn
    simp [hn]
  | succ k ih =>
    intro n hn
    rw [varintEncode_eq]
    by_cases h : n < 128
    · simp [h]
    · simp only [h, if_false, List.length_cons]
      have hdiv : n / 128 < 128 ^ (k + 1) := by
        apply Nat.div_lt_of_lt_mul
        calc n < 128 ^ (k + 2) := hn
          _ = 128 * 128 ^ (k + 1) := by ring
      exact Nat.succ_le_succ (ih (n / 128) hdiv)

theorem varintEncode_ne_nil (n : Nat) : varintEncode n ≠ [] := by
  rw [varintEncode_eq]
  split <;> simp

theorem parseVarintAux_append :
    ∀ n fuel rest, (varintEncode n).length ≤ fuel →
      parseVarintAux fuel (varintEncode n ++ rest) = .ok (n, rest) := by
  intro n
  induction n using Nat.strong_induction_on with
  | _ n ih =>
    intro fuel rest hlen
    rw [varintEncode_eq] at hlen ⊢
    by_cases h : n < 128
    · simp only [h, if_true, List.length_singleton] at hlen ⊢
      cases fuel with
      | zero => omega
      | succ f => simp [parseVarintAux, h]
    · simp only [h, if_false, List.length_cons] at hlen ⊢
      cases fuel with
      | zero => omega
      | succ f =>
        simp only [List.cons_append, parseVarintAux]
        have hb : ¬ n % 128 + 128 < 128 := by omega
        simp only [hb, if_false]
        have hlt : n / 128 < n := Nat.div_lt_self (by omega) (by omega)
        rw [List.append_eq, ih (n / 128) hlt f rest (by omega)]
        simp only [Except.ok.injEq, Prod.mk.injEq]
        exact ⟨by omega, trivial⟩

theorem parseVarintAux_of_proper :
    ∀ n fuel p q, p ++ q = varintEncode n → q ≠ [] → p.length < fuel →
      parseVarintAux fuel p = .error .Truncated := by
  intro n
  induction n using Nat.strong_induction_on with
  | _ n ih =>
    intro fuel p q hpq hq hlt
    rw [varintEncode_eq] at hpq
    by_cases h : n < 128
    · simp only [h, if_true] at hpq
      have hp : p = [] := by
        cases p with
        | nil => rfl
        | cons a t =>
          simp only [List.cons_append, List.cons.injEq] at hpq
          rcases hpq with ⟨-, ht⟩
          have := congrArg List.length ht
          simp at this
          exact absurd this.2 hq
      subst hp
      cases fuel <;> simp [parseVarintAux]
    · simp only [h, if_false] at hpq
      cases p with
      | nil => cases fuel <;> simp [parseVarintAux]
      | cons a t =>
        simp only [List.cons_append, List.cons.injEq] at hpq
        rcases hpq with ⟨ha, ht⟩
        cases fuel with
        | zero => omega
        | succ f =>
          simp only [parseVarintAux]
          have hb : ¬ a < 128 := by omega
          simp only [hb, if_false]
          have hlt' : n / 128 < n := Nat.div_lt_self (by omega) (by omega)
          rw [ih (n / 128) hlt' f t q ht hq (by simp at hlt; omega)]

theorem parseVarintAux_consume :
    ∀ fuel bs x rest, parseVarintAux fuel bs = .ok (x, rest) →
      rest.length < bs.length := by
  intro fuel
  induction fuel with
  | zero =>
    intro bs x rest h
    cases bs <;> simp [parseVarintAux] at h
  | succ f ih =>
    intro bs x rest h
    cases bs with
    | nil => simp [parseVarintAux] at h
    | cons b t =>
      simp only [parseVarintAux] at h
      by_cases hb : b < 128
      · simp only [hb, if_true, Except.ok.injEq, Prod.mk.injEq] at h
        rw [← h.2]
        simp
      · simp only [hb, if_false] at h
        cases hrec : parseVarintAux f t with
        | ok v =>
          obtain ⟨y, r2⟩ := v
          rw [hrec] at h
          simp only [Except.ok.injEq, Prod.mk.injEq] at h
          have := ih t y r2 hrec
          rw [← h.2]
          simp
          omega
        | error e =>
          rw [hrec] at h
          simp at h

theorem parseVarint_append (n : Nat) (rest : List Nat)
    (h : (varintEncode n).length ≤ 10) :
    parseVarint (varintEncode n ++ rest) = .ok (n, rest) :=
  parseVarintAux_append n 10 rest h

theorem parseVarint_of_proper (n : Nat) (p q : List Nat)
    (hpq : p ++ q = varintEncode n) (hq : q ≠ []) (hp : p.length < 10) :
    parseVarint p = .error .Truncated :=
  parseVarintAux_of_proper n 10 p q hpq hq hp

theorem parseVarint_consume (bs rest : List Nat) (x : Nat)
    (h : parseVarint bs = .ok (x, rest)) : rest.length < bs.length :=
  parseVarintAux_consume 10 bs x rest h

theorem tsU64_lt (ts : Int) : tsU64 ts < 2 ^ 64 := by
  unfold tsU64
  have h1 : 0 ≤ ts % (2 ^ 64 : Int) := Int.emod_nonneg ts (by norm_num)
  have h2 : ts % (2 ^ 64 : Int) < 2 ^ 64 := Int.emod_lt_of_pos ts (by norm_num)
  omega

theorem u64ToInt_tsU64 (ts : Int) (h1 : -(2 ^ 63) ≤ ts) (h2 : ts < 2 ^ 63) :
    u64ToInt (tsU64 ts) = ts := by
  have hn : 0 ≤ ts % (2 ^ 64 : Int) := Int.emod_nonneg ts (by norm_num)
  have hlt : ts % (2 ^ 64 : Int) < 2 ^ 64 := Int.emod_lt_of_pos ts (by norm_num)
  have hmod : ts % (2 ^ 64 : Int) = ts ∨ ts % (2 ^ 64 : Int) = ts + 2 ^ 64 := by
    omega
  unfold u64ToInt tsU64
  split <;> omega

theorem varintEncode_tsU64_length (ts : Int) :
    (varintEncode (tsU64 ts)).length ≤ 10 := by
  have h : tsU64 ts < 128 ^ 10 := by
    calc tsU64 ts < 2 ^ 64 := tsU64_lt ts
      _ ≤ 128 ^ 10 := by norm_num
  exact varintEncode_length 9 (tsU64 ts) h

theorem decodeFrame_encode_append (ts : Int) (data rest : List Nat)
    (h3 : data.length ≤ MAX_DATA_BYTES) :
    decodeFrame (encode ⟨ts, data⟩ ++ rest) = .ok (⟨u64ToInt (tsU64 ts), data⟩, rest) := by
  have hV2 : (varintEncode data.length).length ≤ 10 := by
    have h128' : data.length < 128 ^ (0 + 1) := by
      simp only [MAX_DATA_BYTES] at h3
      have h128 : (128 : Nat) ^ (0 + 1) = 128 := by norm_num
      omega
    have := varintEncode_length 0 data.length h128'
    omega
  have henc : encode ⟨ts, data⟩ ++ rest =
      8 :: (varintEncode (tsU64 ts) ++ (18 :: (varintEncode data.length ++ (data ++ rest)))) := by
    simp [encode]
  rw [henc]
  simp only [decodeFrame]
  rw [parseVarint_append (tsU64 ts) _ (varintEncode_tsU64_length ts)]
  simp only [if_true]
  rw [parseVarint_append data.length (data ++ rest) hV2]
  simp only [gt_iff_lt, List.length_append, Nat.mod_eq_of_lt (tsU64_lt ts)]
  rw [if_neg (show ¬ MAX_DATA_BYTES < data.length by omega)]
  rw [if_neg (show ¬ data.length + rest.length < data.length by omega)]
  rw [List.take_left, List.drop_left]

theorem decode_encode (ts : Int) (data : List Nat)
    (h1 : -(2 ^ 63) ≤ ts) (h2 : ts < 2 ^ 63) (h3 : data.length ≤ MAX_DATA_BYTES) :
    decode (encode ⟨ts, data⟩) = .ok ⟨ts, data⟩ := by
  have hfr := decodeFrame_encode_append ts data [] h3
  rw [List.append_nil] at hfr
  simp only [decode, hfr, u64ToInt_tsU64 ts h1 h2]

theorem decodeFrame_encode_large (ts : Int) (data rest : List Nat)
    (h3 : MAX_DATA_BYTES < data.length) (h4 : data.length < 2 ^ 64) :
    decodeFrame (encode ⟨ts, data⟩ ++ rest) = .error .TooLarge := by
  have hV2 : (varintEncode data.length).length ≤ 10 := by
    have h128' : data.length < 128 ^ 10 := by
      calc data.length < 2 ^ 64 := h4
        _ ≤ 128 ^ 10 := by norm_num
    have h910 : (9 : Nat) + 1 = 10 := rfl
    have := varintEncode_length 9 data.length (by rw [h910]; exact h128')
    omega
  have henc : encode ⟨ts, data⟩ ++ rest =
      8 :: (varintEncode (tsU64 ts) ++ (18 :: (varintEncode data.length ++ (data ++ rest)))) := by
    simp [encode]
  rw [henc]
  simp only [decodeFrame]
  rw [parseVarint_append (tsU64 ts) _ (varintEncode_tsU64_length ts)]
  simp only [if_true]
  rw [parseVarint_append data.length (data ++ rest) hV2]
  simp only [gt_iff_lt]
  rw [if_pos (show MAX_DATA_BYTES < data.length from h3)]

theorem decode_encode_large (ts : Int) (data : List Nat)
    (h3 : MAX_DATA_BYTES < data.length) (h4 : data.length < 2 ^ 64) :
    decode (encode ⟨ts, data⟩) = .error .TooLarge := by
  have hfr := decodeFrame_encode_large ts data [] h3 h4
  rw [List.append_nil] at hfr
  simp only [decode, hfr]

theorem encode_length (r : Record) :
    (encode r).length =
      2 + (varintEncode (tsU64 r.timestamp)).length +
        (varintEncode r.data.length).length + r.data.length := by
  simp [encode]
  omega

theorem encode_length_le (r : Record) (h : r.data.length ≤ MAX_DATA_BYTES) :
    (encode r).length ≤ MAX_FRAME_BYTES := by
  have h1 := varintEncode_tsU64_length r.timestamp
  have hV2 : (varintEncode r.data.length).length ≤ 1 := by
    apply varintEncode_length 0
    have h128 : (128 : Nat) ^ (0 + 1) = 128 := by norm_num
    simp only [MAX_DATA_BYTES] at h
    omega
  rw [encode_length]
  simp only [MAX_DATA_BYTES] at h
  simp only [MAX_FRAME_BYTES]
  omega

theorem parseVarint_exact (n : Nat) (h : (varintEncode n).length ≤ 10) :
    parseVarint (varintEncode n) = .ok (n, []) := by
  have := parseVarint_append n [] h
  rwa [List.append_nil] at this

theorem decodeFrame_of_proper (ts : Int) (data p q : List Nat)
    (h3 : data.length ≤ MAX_DATA_BYTES)
    (hpq : p ++ q = encode ⟨ts, data⟩) (hq : q ≠ []) :
    decodeFrame p = .error .Truncated := by
  have hV1 := varintEncode_tsU64_length ts
  have hV2 : (varintEncode data.length).length ≤ 10 := by
    have h128' : data.length < 128 ^ (0 + 1) := by
      simp only [MAX_DATA_BYTES] at h3
      have h128 : (128 : Nat) ^ (0 + 1) = 128 := by norm_num
      omega
    have := varintEncode_length 0 data.length h128'
    omega
  have henc : encode ⟨ts, data⟩ =
      8 :: (varintEncode (tsU64 ts) ++ (18 :: (varintEncode data.length ++ data))) := by
    simp [encode]
  rw [henc] at hpq
  cases p with
  | nil => simp [decodeFrame]
  | cons a t =>
    simp only [List.cons_append, List.cons.injEq] at hpq
    obtain ⟨ha, ht⟩ := hpq
    subst ha
    simp only [decodeFrame, if_true]
    rcases List.append_eq_append_iff.mp ht with ⟨a1, hv1, hq1⟩ | ⟨c1, ht1, hr1⟩
    · -- t lies inside the timestamp varint
      cases a1 with
      | nil =>
        rw [List.append_nil] at hv1
        subst hv1
        rw [parseVarint_exact (tsU64 ts) hV1]
      | cons x xs =>
        rw [parseVarint_of_proper (tsU64 ts) t (x :: xs) hv1.symm (by simp)
          (by have := congrArg List.length hv1; simp at this; omega)]
    · -- t covers the timestamp varint; c1 continues into field 2
      subst ht1
      rw [parseVarint_append _ _ hV1]
      cases c1 with
      | nil => rfl
      | cons b c2 =>
        simp only [List.cons_append, List.cons.injEq] at hr1
        obtain ⟨hb, hc2⟩ := hr1
        subst hb
        simp only [if_true]
        rcases List.append_eq_append_iff.mp hc2 with ⟨a2, hc2a, hdata⟩ | ⟨c3, hv2, hq2⟩
        · -- c2 covers the length varint and a strict front part of the data
          subst hc2a
          rw [parseVarint_append _ _ hV2]
          simp only [gt_iff_lt]
          rw [if_neg (show ¬ MAX_DATA_BYTES < data.length by omega)]
          have hlt : a2.length < data.length := by
            have := congrArg List.length hdata
            simp only [List.length_append] at this
            cases q with
            | nil => exact absurd rfl hq
            | cons z zs => simp at this; omega
          rw [if_pos hlt]
        · -- c2 lies inside the length varint
          cases c3 with
          | nil =>
            rw [List.append_nil] at hv2
            subst hv2
            rw [parseVarint_exact data.length hV2]
            have hd0 : data ≠ [] := by
              intro h0
              rw [h0, List.append_nil] at hq2
              exact hq hq2
            simp only [gt_iff_lt]
            rw [if_neg (show ¬ MAX_DATA_BYTES < data.length by omega)]
            rw [if_pos (show ([] : List Nat).length < data.length by
              simp only [List.length_nil]
              exact List.length_pos.mpr hd0)]
          | cons y ys =>
            rw [parseVarint_of_proper data.length c2 (y :: ys) hv2.symm (by simp)
              (by have := congrArg List.length hv2; simp at this; omega)]

theorem decodeFrame_consume (bs : List Nat) (r : Record) (rest : List Nat)
    (h : decodeFrame bs = .ok (r, rest)) : rest.length < bs.length := by
  unfold decodeFrame at h
  cases bs with
  | nil => simp at h
  | cons t1 rest1 =>
    by_cases h1 : t1 = 8
    · simp only [h1, if_true] at h
      cases hv1 : parseVarint rest1 with
      | error e => rw [hv1] at h; simp at h
      | ok v1 =>
        obtain ⟨u, rest2⟩ := v1
        rw [hv1] at h
        have hc1 := parseVarint_consume rest1 rest2 u hv1
        cases rest2 with
        | nil => simp at h
        | cons t2 rest3 =>
          by_cases h2 : t2 = 18
          · simp only [h2, if_true] at h
            cases hv2 : parseVarint rest3 with
            | error e => rw [hv2] at h; simp at h
            | ok v2 =>
              obtain ⟨len, rest4⟩ := v2
              rw [hv2] at h
              have hc2 := parseVarint_consume rest3 rest4 len hv2
              by_cases h3 : len > MAX_DATA_BYTES
              · simp only [h3, if_true] at h; simp at h
              · simp only [h3, if_false] at h
                by_cases h4 : rest4.length < len
                · simp only [h4, if_true] at h; simp at h
                · simp only [h4, if_false, Except.ok.injEq, Prod.mk.injEq] at h
                  have hr : rest = rest4.drop len := h.2.symm
                  simp only [List.length_cons] at *
                  rw [hr]
                  simp only [List.length_drop]
                  omega
          · simp [h2] at h
    · simp [h1] at h

theorem decodeFrame_data_le (bs : List Nat) (r : Record) (rest : List Nat)
    (h : decodeFrame bs = .ok (r, rest)) : r.data.length ≤ MAX_DATA_BYTES := by
  unfold decodeFrame at h
  cases bs with
  | nil => simp at h
  | cons t1 rest1 =>
    by_cases h1 : t1 = 8
    · simp only [h1, if_true] at h
      cases hv1 : parseVarint rest1 with
      | error e => rw [hv1] at h; simp at h
      | ok v1 =>
        obtain ⟨u, rest2⟩ := v1
        rw [hv1] at h
        cases rest2 with
        | nil => simp at h
        | cons t2 rest3 =>
          by_cases h2 : t2 = 18
          · simp only [h2, if_true] at h
            cases hv2 : parseVarint rest3 with
            | error e => rw [hv2] at h; simp at h
            | ok v2 =>
              obtain ⟨len, rest4⟩ := v2
              rw [hv2] at h
              by_cases h3 : len > MAX_DATA_BYTES
              · simp only [h3, if_true] at h; simp at h
              · simp only [h3, if_false] at h
                by_cases h4 : rest4.length < len
                · simp only [h4, if_true] at h; simp at h
                · simp only [h4, if_false, Except.ok.injEq, Prod.mk.injEq] at h
                  have hr : r = ⟨u64ToInt (u % 2 ^ 64), rest4.take len⟩ := h.1.symm
                  rw [hr]
                  simp only [List.length_take]
                  omega
          · simp [h2] at h
    · simp [h1] at h

theorem decode_data_le (bs : List Nat) (r : Record)
    (h : decode bs = .ok r) : r.data.length ≤ MAX_DATA_BYTES := by
  unfold decode at h
  cases hf : decodeFrame bs with
  | error e => rw [hf] at h; simp at h
  | ok v =>
    obtain ⟨r2, rest⟩ := v
    rw [hf] at h
    cases rest with
    | nil =>
      simp only [Except.ok.injEq] at h
      exact h ▸ decodeFrame_data_le bs r2 [] hf
    | cons z zs => simp at h

theorem rxStep_buf_lt (s : RxState) (b : Nat)
    (h : s.buf.length < MAX_FRAME_BYTES) :
    ((rxStep s b).1).buf.length < MAX_FRAME_BYTES := by
  unfold rxStep
  cases hf : decodeFrame (s.buf ++ [b]) with
  | ok v =>
    obtain ⟨r, rest⟩ := v
    have hcons := decodeFrame_consume (s.buf ++ [b]) r rest hf
    simp only [List.length_append, List.length_cons, List.length_nil] at hcons
    simp only [MAX_FRAME_BYTES] at *
    omega
  | error e =>
    cases e with
    | Truncated =>
      by_cases hb : MAX_FRAME_BYTES ≤ (s.buf ++ [b]).length
      · simp only [hb, if_true]
        simp [MAX_FRAME_BYTES]
      · simp only [hb, if_false]
        simp only [List.length_append, List.length_cons, List.length_nil] at hb ⊢
        omega
    | Malformed => simp [MAX_FRAME_BYTES]
    | TooLarge => simp [MAX_FRAME_BYTES]

theorem rxRun_buf_lt (bytes : List Nat) :
    ∀ s : RxState, s.buf.length < MAX_FRAME_BYTES →
      ((rxRun s bytes).1).buf.length < MAX_FRAME_BYTES := by
  induction bytes with
  | nil => intro s h; exact h
  | cons b bs ih =>
    intro s h
    simp only [rxRun]
    exact ih (rxStep s b).1 (rxStep_buf_lt s b h)

theorem rxRun_frame_aux :
    ∀ (rest acc full : List Nat) (r : Record),
      full = acc ++ rest → rest ≠ [] →
      (∀ p q, p ++ q = full → q ≠ [] → decodeFrame p = .error .Truncated) →
      full.length ≤ MAX_FRAME_BYTES →
      decodeFrame full = .ok (r, []) →
      rxRun ⟨acc⟩ rest = (⟨[]⟩, [.decoded r]) := by
  intro rest
  induction rest with
  | nil => intro acc full r hfull hne; exact absurd rfl hne
  | cons b bs ih =>
    intro acc full r hfull hne hpre hlen hok
    simp only [rxRun]
    cases bs with
    | nil =>
      have hbuf : acc ++ [b] = full := by rw [hfull]
      unfold rxStep
      rw [hbuf, hok]
      simp [rxRun]
    | cons b2 bs2 =>
      have hbuf : (acc ++ [b]) ++ (b2 :: bs2) = full := by
        rw [hfull]
        simp
      have htr : decodeFrame (acc ++ [b]) = .error .Truncated :=
        hpre (acc ++ [b]) (b2 :: bs2) hbuf (by simp)
      have hblen : ¬ MAX_FRAME_BYTES ≤ (acc ++ [b]).length := by
        have := congrArg List.length hbuf
        simp only [List.length_append, List.length_cons] at this hlen ⊢
        omega
      have hstep : rxStep ⟨acc⟩ b = (⟨acc ++ [b]⟩, []) := by
        unfold rxStep
        simp only [htr]
        rw [if_neg hblen]
      rw [hstep]
      simp only [List.nil_append]
      exact ih (acc ++ [b]) full r hbuf.symm (by simp) hpre hlen hok

theorem rxStep_overflow (s : RxState) (b : Nat)
    (htr : decodeFrame (s.buf ++ [b]) = .error .Truncated)
    (hlen : MAX_FRAME_BYTES ≤ (s.buf ++ [b]).length) :
    rxStep s b = (⟨[]⟩, [.overflow]) := by
  unfold rxStep
  simp only [htr]
  rw [if_pos hlen]

theorem decodeFrame_encode_exact (r : Record)
    (h1 : -(2 ^ 63) ≤ r.timestamp) (h2 : r.timestamp < 2 ^ 63)
    (h3 : r.data.length ≤ MAX_DATA_BYTES) :
    decodeFrame (encode r) = .ok (r, []) := by
  have hfr := decodeFrame_encode_append r.timestamp r.data [] h3
  rw [List.append_nil] at hfr
  rw [hfr, u64ToInt_tsU64 r.timestamp h1 h2]

theorem rxRun_encode (r : Record)
    (h1 : -(2 ^ 63) ≤ r.timestamp) (h2 : r.timestamp < 2 ^ 63)
    (h3 : r.data.length ≤ MAX_DATA_BYTES) :
    rxRun ⟨[]⟩ (encode r) = (⟨[]⟩, [.decoded r]) := by
  apply rxRun_frame_aux (encode r) [] (encode r) r rfl
  · simp [encode]
  · exact fun p q hpq hq => decodeFrame_of_proper r.timestamp r.data p q h3 hpq hq
  · exact encode_length_le r h3
  · exact decodeFrame_encode_exact r h1 h2 h3

/-- C1: decoding the bytes produced by encoding any valid Record (signed
64-bit timestamp, 0-112 data bytes) yields that same Record. -/
theorem roundtrip_decode_encode (r : Record) (h : ValidRecord r) :
    decode (encode r) = .ok r := by
  obtain ⟨h1, h2, h3, h4⟩ := h
  exact decode_encode r.timestamp r.data h1 h2 h3

theorem roundtrip_decode_encode_witness :
    ValidRecord ⟨1727185234, [72, 105]⟩ ∧
      decode (encode ⟨1727185234, [72, 105]⟩) = .ok ⟨1727185234, [72, 105]⟩ := by
  have hv : ValidRecord ⟨1727185234, [72, 105]⟩ := by
    refine ⟨by norm_num, by norm_num, by norm_num [MAX_DATA_BYTES], ?_⟩
    decide
  exact ⟨hv, roundtrip_decode_encode ⟨1727185234, [72, 105]⟩ hv⟩

/-- C2 counterexample: the encode path does NOT reject every Record whose
data exceeds 112 bytes.  A 60-character message of two-byte UTF-8 characters
passes `main`'s `len(msg) >= 113` check and is transmitted by `send_message`,
although its serialized data field is 120 bytes. -/
theorem size_limit_encode_cex :
    (utf8Encode multibyteMsg).length = 120 ∧
      main_loop_step (some ⟨true⟩) multibyteMsg 0 =
        some (encode ⟨0, utf8Encode multibyteMsg⟩) :=
  ⟨rfl, rfl⟩

/-- C2 (amended): the 112-byte limit is enforced on the decode path — decode
never yields a Record with more than 112 data bytes, and an encoded Record
with oversized data decodes to `TooLarge` — while on the encode path the only
guard is `main`'s character-count check, which rejects messages of at least
113 characters (and is not equivalent to a byte-count check). -/
theorem size_limit_enforcement (bs : List Nat) (r : Record) (ts : Int)
    (data : List Nat) (msg : String) (ser : Option SerialConn)
    (hok : decode bs = .ok r)
    (hbig : MAX_DATA_BYTES < data.length) (hb64 : data.length < 2 ^ 64)
    (hlong : 113 ≤ msg.length) :
    r.data.length ≤ MAX_DATA_BYTES ∧
      decode (encode ⟨ts, data⟩) = .error .TooLarge ∧
      main_loop_step ser msg ts = none := by
  refine ⟨decode_data_le bs r hok, decode_encode_large ts data hbig hb64, ?_⟩
  unfold main_loop_step
  rw [if_pos hlong]

theorem size_limit_enforcement_witness :
    (⟨(0 : Int), [65]⟩ : Record).data.length ≤ MAX_DATA_BYTES ∧
      decode (encode ⟨(0 : Int), List.replicate 113 0⟩) = .error .TooLarge ∧
      main_loop_step (some ⟨true⟩) (String.mk (List.replicate 113 (Char.ofNat 97))) 0 = none :=
  size_limit_enforcement (encode ⟨0, [65]⟩) ⟨0, [65]⟩ 0 (List.replicate 113 0)
    (String.mk (List.replicate 113 (Char.ofNat 97))) (some ⟨true⟩)
    rfl (by norm_num [MAX_DATA_BYTES]) (by norm_num) (by exact Nat.le_refl 113)

/-- C3 counterexample: a Record carrying 113 data bytes is not rejected by
encode at all — the codec happily produces a well-formed 121-byte frame (the
repository's own oversized-message test builds exactly this payload and
writes it to the port); rejection happens only at decode. -/
theorem boundary_113_encode_cex :
    (encode ⟨1727185234, List.replicate 113 65⟩).length = 121 ∧
      decode (encode ⟨1727185234, List.replicate 113 65⟩) = .error .TooLarge :=
  ⟨rfl, rfl⟩

/-- C3 (amended): a Record with exactly 112 data bytes encodes and decodes
successfully; a message of 113 characters is refused by the interactive
input loop (no `TooLarge` error exists on the encode side — a 113-byte
Record is still encodable); if a frame carrying a 113-byte data field is
received, decode rejects it with `TooLarge`, and the Receiver emits no
decoded Record (hence no Presentation text) for such a stream. -/
theorem boundary_112_113 (ts : Int) (d112 d113 : List Nat) (msg : String)
    (ser : Option SerialConn)
    (h1 : -(2 ^ 63) ≤ ts) (h2 : ts < 2 ^ 63)
    (hd112 : d112.length = 112) (hd113 : d113.length = 113)
    (hmsg : 113 ≤ msg.length) :
    decode (encode ⟨ts, d112⟩) = .ok ⟨ts, d112⟩ ∧
      main_loop_step ser msg ts = none ∧
      decode (encode ⟨ts, d113⟩) = .error .TooLarge ∧
      ((rxRun ⟨[]⟩ (encode ⟨1727185234, List.replicate 113 65⟩)).2.all
        (fun e => !e.isDecoded)) = true := by
  refine ⟨?_, ?_, ?_, rfl⟩
  · exact decode_encode ts d112 h1 h2 (by rw [hd112]; norm_num [MAX_DATA_BYTES])
  · unfold main_loop_step
    rw [if_pos hmsg]
  · exact decode_encode_large ts d113 (by rw [hd113]; norm_num [MAX_DATA_BYTES])
      (by rw [hd113]; norm_num)

theorem boundary_112_113_witness :
    decode (encode ⟨(0 : Int), List.replicate 112 65⟩) = .ok ⟨0, List.replicate 112 65⟩ ∧
      main_loop_step none (String.mk (List.replicate 113 (Char.ofNat 98))) 0 = none ∧
      decode (encode ⟨(0 : Int), List.replicate 113 66⟩) = .error .TooLarge ∧
      ((rxRun ⟨[]⟩ (encode ⟨1727185234, List.replicate 113 65⟩)).2.all
        (fun e => !e.isDecoded)) = true :=
  boundary_112_113 0 (List.replicate 112 65) (List.replicate 113 66)
    (String.mk (List.replicate 113 (Char.ofNat 98))) none
    (by norm_num) (by norm_num) (by norm_num) (by norm_num) (by exact Nat.le_refl 113)

/-- C4: the scenario Record {1727185234, "Hello, world!"} serializes to a
21-byte frame, renders to exactly the expected JSON text, and that text is
47 bytes long in UTF-8. -/
theorem scenario_hello_world :
    (create_protobuf_payload 1727185234 "Hello, world!").length = 21 ∧
      render ⟨1727185234, "Hello, world!"⟩ =
        "\x7b\"timestamp\":1727185234,\"data\":\"Hello, world!\"\x7d" ∧
      (utf8Encode (render ⟨1727185234, "Hello, world!"⟩)).length = 47 :=
  ⟨rfl, rfl, rfl⟩

/-- C5: encode is deterministic — two calls on equal Records give
byte-identical output. -/
theorem encode_deterministic (r1 r2 : Record) (h : r1 = r2) :
    encode r1 = encode r2 := by
  rw [h]

theorem encode_deterministic_witness :
    (⟨5, [1]⟩ : Record) = ⟨5, [1]⟩ ∧
      encode (⟨5, [1]⟩ : Record) = encode ⟨5, [1]⟩ :=
  ⟨rfl, encode_deterministic ⟨5, [1]⟩ ⟨5, [1]⟩ rfl⟩

/-- C6: a Record whose data is the empty string encodes and decodes back to
the empty string; empty data is not a decode failure. -/
theorem empty_data_roundtrip (ts : Int)
    (h1 : -(2 ^ 63) ≤ ts) (h2 : ts < 2 ^ 63) :
    utf8Encode "" = [] ∧
      decode (create_protobuf_payload ts "") = .ok ⟨ts, utf8Encode ""⟩ := by
  refine ⟨rfl, ?_⟩
  exact decode_encode ts (utf8Encode "") h1 h2 (by norm_num [MAX_DATA_BYTES, utf8Encode])

theorem empty_data_roundtrip_witness :
    utf8Encode "" = [] ∧
      decode (create_protobuf_payload 1727185238 "") = .ok ⟨1727185238, utf8Encode ""⟩ :=
  empty_data_roundtrip 1727185238 (by norm_num) (by norm_num)

/-- C7: the Presentation Converter is a total function (it cannot raise) and
produces the canonical structured text: fixed key order with `timestamp`
first as a plain decimal integer and `data` second, with minimal escaping —
any character other than the double quote, the backslash and the control
range is emitted verbatim, and the characters that must be escaped for the
form to stay syntactically valid are. -/
theorem render_canonical (r : TextRecord) (c : Char)
    (hc1 : c ≠ Char.ofNat 34) (hc2 : c ≠ '\\') (hc3 : 32 ≤ c.toNat) :
    render r = "\x7b\"timestamp\":" ++ r.timestamp.repr ++ ",\"data\":\"" ++
        escape r.data ++ "\"\x7d" ∧
      escapeChar c = String.mk [c] ∧
      escapeChar (Char.ofNat 34) = "\\\"" ∧
      escapeChar '\\' = "\\\\" := by
  refine ⟨rfl, ?_, rfl, rfl⟩
  unfold escapeChar
  rw [if_neg hc1, if_neg hc2, if_neg (by omega)]

theorem render_canonical_witness :
    render ⟨7, "a"⟩ = "\x7b\"timestamp\":" ++ (7 : Int).repr ++ ",\"data\":\"" ++
        escape "a" ++ "\"\x7d" ∧
      escapeChar (Char.ofNat 97) = String.mk [Char.ofNat 97] ∧
      escapeChar (Char.ofNat 34) = "\\\"" ∧
      escapeChar '\\' = "\\\\" :=
  render_canonical ⟨7, "a"⟩ (Char.ofNat 97) (by decide) (by decide) (by decide)

/-- C8: when the Receive Buffer reaches `MAX_FRAME_BYTES` while decode still
reports `Truncated`, the Receiver discards the buffer, emits exactly the
overflow diagnostic and restarts empty; from that fresh state the next valid
Frame is decoded to exactly its Record; and from the initial state the
buffer length stays within `MAX_FRAME_BYTES` on every byte stream. -/
theorem receiver_overflow_resync (s : RxState) (b : Nat) (bytes : List Nat)
    (r : Record)
    (htr : decodeFrame (s.buf ++ [b]) = .error .Truncated)
    (hlen : MAX_FRAME_BYTES ≤ (s.buf ++ [b]).length)
    (h1 : -(2 ^ 63) ≤ r.timestamp) (h2 : r.timestamp < 2 ^ 63)
    (h3 : r.data.length ≤ MAX_DATA_BYTES) :
    rxStep s b = (⟨[]⟩, [.overflow]) ∧
      rxRun ⟨[]⟩ (encode r) = (⟨[]⟩, [.decoded r]) ∧
      ((rxRun ⟨[]⟩ bytes).1).buf.length ≤ MAX_FRAME_BYTES := by
  refine ⟨rxStep_overflow s b htr hlen, rxRun_encode r h1 h2 h3, ?_⟩
  exact le_of_lt (rxRun_buf_lt bytes ⟨[]⟩ (by norm_num [MAX_FRAME_BYTES]))

theorem receiver_overflow_resync_witness :
    rxStep ⟨nearFullBuf⟩ 0 = (⟨[]⟩, [.overflow]) ∧
      rxRun ⟨[]⟩ (encode ⟨7, [1, 2, 3]⟩) = (⟨[]⟩, [.decoded ⟨7, [1, 2, 3]⟩]) ∧
      ((rxRun ⟨[]⟩ [8, 1, 2]).1).buf.length ≤ MAX_FRAME_BYTES :=
  receiver_overflow_resync ⟨nearFullBuf⟩ 0 [8, 1, 2] ⟨7, [1, 2, 3]⟩
    rfl (by norm_num [nearFullBuf, MAX_FRAME_BYTES]) (by norm_num) (by norm_num)
    (by norm_num [MAX_DATA_BYTES])

/-- C9: `send_message` performs no size validation of its own — with an open
connection it serializes and writes any message of any length; the 113-
character cut-off lives only in `main`'s interactive loop, which refuses
long messages before calling `send_message` and otherwise delegates to it
unchanged. -/
theorem send_message_no_size_check (s : SerialConn) (msg : String) (ts : Int)
    (hopen : s.is_open = true) :
    send_message (some s) msg ts = some (encode ⟨ts, utf8Encode msg⟩) ∧
      (113 ≤ msg.length → main_loop_step (some s) msg ts = none) ∧
      (msg.length < 113 → main_loop_step (some s) msg ts = send_message (some s) msg ts) := by
  refine ⟨?_, ?_, ?_⟩
  · simp only [send_message, hopen, if_true]
  · intro h
    unfold main_loop_step
    rw [if_pos h]
  · intro h
    unfold main_loop_step
    rw [if_neg (by omega)]

theorem send_message_no_size_check_witness :
    send_message (some ⟨true⟩) (String.mk (List.replicate 130 (Char.ofNat 97))) 9 =
        some (encode ⟨9, utf8Encode (String.mk (List.replicate 130 (Char.ofNat 97)))⟩) ∧
      (113 ≤ (String.mk (List.replicate 130 (Char.ofNat 97))).length →
        main_loop_step (some ⟨true⟩) (String.mk (List.replicate 130 (Char.ofNat 97))) 9 = none) ∧
      ((String.mk (List.replicate 130 (Char.ofNat 97))).length < 113 →
        main_loop_step (some ⟨true⟩) (String.mk (List.replicate 130 (Char.ofNat 97))) 9 =
          send_message (some ⟨true⟩) (String.mk (List.replicate 130 (Char.ofNat 97))) 9) :=
  send_message_no_size_check ⟨true⟩ (String.mk (List.replicate 130 (Char.ofNat 97))) 9 rfl

/-- C10: the host-side gate compares Python character count, not UTF-8 byte
count: a 60-character message of two-byte characters passes `len(msg) >= 113`
and is transmitted although its serialized data field is 120 bytes. -/
theorem char_count_gate_byte_gap :
    multibyteMsg.length ≤ 112 ∧
      main_loop_step (some ⟨true⟩) multibyteMsg 0 =
        some (encode ⟨0, utf8Encode multibyteMsg⟩) ∧
      112 < (utf8Encode multibyteMsg).length ∧
      ∃ c ∈ multibyteMsg.data, 1 < (utf8EncodeChar c).length := by
  have hlen : multibyteMsg.length = 60 := rfl
  have hbytes : (utf8Encode multibyteMsg).length = 120 := rfl
  have hdata : multibyteMsg.data = List.replicate 60 (Char.ofNat 233) := rfl
  have hchar : (utf8EncodeChar (Char.ofNat 233)).length = 2 := rfl
  refine ⟨by omega, rfl, by omega, ⟨Char.ofNat 233, ?_, by omega⟩⟩
  rw [hdata]
  exact List.mem_replicate.mpr ⟨by omega, rfl⟩
